import Mathlib

/-!
Verification of the Restly daily-activity analytics core.

This file is a shallow embedding of the analysis pipeline implemented in
`daily_summary.py` (class `ActivityAnalyzer`) and of the score / presentation
computation in `dashboard_server.py` (`RestlyDashboard.get_dashboard_data`).

Modelling conventions:
- One decoded JSON log line becomes an `ActivityEvent`; a line that fails to
  decode is represented as `none` in the input list (JSON decoding itself is
  external library code).
- `datetime.fromisoformat` is abstracted as a parameter `P : ParseFn`
  returning the parsed hour-of-day together with an absolute time in hours;
  parse failure is `none`.  The `.replace` of a trailing Z is part of the
  abstracted parse.
- Python floats are modelled as rationals; `round(x, 1)` is modelled as
  rounding to the nearest tenth with ties taken upward (no verified property
  depends on the tie direction of Python float rounding).
- Python dicts whose key sets evolve (`hourly_activity`, `break_types`) are
  modelled as insertion-ordered association lists, matching dict iteration
  order; `dict.get(k, d)` is an association-list lookup with default.
- The two insight message texts that contain an apostrophe in the source are
  reproduced without the apostrophe; no verified property depends on the
  wording of those two messages.
- Fields of the dashboard document produced by I/O (`ai_summary`, the
  `timestamp` clock read) and the static ring colours are outside the
  embedded computation.
-/

namespace Restly

/-- The optional `system_state` object carried by a log event;
`total_work_minutes_today` is `none` when that key is absent. -/
structure SystemState where
  total_work_minutes_today : Option Int
deriving DecidableEq, Repr

/-- One successfully decoded activity-log record.  `timestamp` is `none` when
the JSON object has no `timestamp` key; `break_type` / `session_type` model
`event_data.get("break_type")` / `event_data.get("session_type")`. -/
structure ActivityEvent where
  timestamp : Option String
  event_type : String
  break_type : Option String
  session_type : Option String
  system_state : Option SystemState
deriving DecidableEq, Repr

/-- Result of a successful `datetime.fromisoformat`: the hour-of-day used by
hourly bucketing, and an absolute time in hours used for durations. -/
structure ParsedTime where
  hour : Nat
  absHours : ℚ
deriving DecidableEq, Repr

/-- Abstraction of ISO-8601 timestamp parsing (`None` = `ValueError`). -/
abbrev ParseFn := String → Option ParsedTime

/-- Floor of a rational, phrased so that the kernel can evaluate it on
concrete inputs (`Rat.floor_def` identifies it with `⌊q⌋`). -/
def ratFloor (q : ℚ) : ℤ := q.num / (q.den : ℤ)

/-- Python `round(q, 1)`: nearest tenth, ties modelled upward. -/
def pyRound1 (q : ℚ) : ℚ := (ratFloor (q * 10 + 1 / 2) : ℚ) / 10

/-- Code-point lexicographic comparison of character lists — the comparison
Python applies to strings. -/
def charsLt : List Char → List Char → Bool
  | _, [] => false
  | [], _ :: _ => true
  | a :: as, b :: bs =>
    if a.toNat < b.toNat then true
    else if b.toNat < a.toNat then false
    else charsLt as bs

/-- Python `s1 < s2` on strings. -/
def strLt (s t : String) : Bool := charsLt s.data t.data

/-- Python `s1 <= s2` on strings. -/
def strLe (s t : String) : Bool := ! strLt t s

/-- `ActivityAnalyzer.load_daily_activities`, lines 41-54: each line is decoded
independently; a malformed line (`none`) is skipped with a warning and never
reaches the caller. -/
def loadDailyActivities : List (Option ActivityEvent) → List ActivityEvent
  | [] => []
  | some a :: rest => a :: loadDailyActivities rest
  | none :: rest => loadDailyActivities rest

/-- The per-event-type counter updates of the analysis loop (lines 103-123):
each counter ends up as the number of events of its type. -/
def countType (t : String) (acts : List ActivityEvent) : Nat :=
  (acts.filter (fun e => e.event_type == t)).length

/-- Deep-work counter (lines 112-114): `session_started` events whose
`event_data.get("session_type")` equals `"deep_work"`. -/
def countDeepWork (acts : List ActivityEvent) : Nat :=
  (acts.filter (fun e =>
    e.event_type == "session_started" && e.session_type == some "deep_work")).length

/-- `break_types[break_type] += 1` guarded by `if break_type in break_types`
(lines 106-107): an absent key is a silent no-op, an existing key keeps its
position in the dict. -/
def bumpKey (k : String) : List (String × Nat) → List (String × Nat)
  | [] => []
  | (s, c) :: rest => if s == k then (s, c + 1) :: rest else (s, c) :: bumpKey k rest

/-- The `break_types` dict after the loop: initialised to
`{"eye_care": 0, "custom_message": 0}` (line 77) and bumped per `break_shown`
event with `event_data.get("break_type", "unknown")` (lines 103-107). -/
def breakTypesOf (acts : List ActivityEvent) : List (String × Nat) :=
  acts.foldl
    (fun bt e =>
      if e.event_type == "break_shown" then bumpKey (e.break_type.getD "unknown") bt
      else bt)
    [("eye_care", 0), ("custom_message", 0)]

/-- `hourly_activity[hour] = hourly_activity.get(hour, 0) + 1` (line 98):
bump an existing key in place, append a new key. -/
def bumpHour (h : Nat) : List (Nat × Nat) → List (Nat × Nat)
  | [] => [(h, 1)]
  | (k, c) :: rest => if k == h then (k, c + 1) :: rest else (k, c) :: bumpHour h rest

/-- The `hourly_activity` dict after the loop (lines 94-100): every event whose
timestamp parses bumps its hour bucket; parse failure (including a missing
`timestamp` key, whose `get` default `""` fails to parse) is skipped. -/
def hourlyOf (P : ParseFn) (acts : List ActivityEvent) : List (Nat × Nat) :=
  acts.foldl
    (fun ha e =>
      match e.timestamp.bind P with
      | some pt => bumpHour pt.hour ha
      | none => ha)
    []

/-- Work-minutes snapshot (lines 82-86): read from the literal last event's
`system_state.total_work_minutes_today` when present, else 0. -/
def finalWorkMinutes (acts : List ActivityEvent) : Int :=
  match acts.getLast? with
  | none => 0
  | some e =>
    match e.system_state with
    | none => 0
    | some ss => ss.total_work_minutes_today.getD 0

/-- Insertion of one histogram entry into a descending-by-count list, keeping
insertion order among equal counts — the unique stable descending sort, which
is what Python's `sorted(..., key=lambda x: x[1], reverse=True)` computes. -/
def insertDesc (x : Nat × Nat) : List (Nat × Nat) → List (Nat × Nat)
  | [] => [x]
  | y :: ys => if x.2 < y.2 then y :: insertDesc x ys else x :: y :: ys

/-- Stable descending sort by count of the hourly histogram (line 149). -/
def sortDesc : List (Nat × Nat) → List (Nat × Nat)
  | [] => []
  | x :: xs => insertDesc x (sortDesc xs)

/-- Python `f"{h:02d}:00"` for an hour-of-day. -/
def fmtHour (h : Nat) : String :=
  (if h < 10 then "0" ++ toString h else toString h) ++ ":00"

/-- Insight message of rule 1 (line 132). -/
def lowComplianceMsg : String :=
  "Low break compliance detected - consider adjusting break duration or frequency"

/-- Insight message of rule 2 (line 134; apostrophe elided). -/
def highComplianceMsg : String :=
  "Excellent break compliance! You are taking good care of your eyes"

/-- Insight message of rule 3 (line 137). -/
def deepWorkMsg (n : Nat) : String :=
  "Used " ++ toString n ++ " deep work session(s) - great for focused productivity"

/-- Insight message of rule 4 (line 140). -/
def rescheduleMsg : String :=
  "Frequent break rescheduling detected - consider adjusting default intervals"

/-- Insight message of rule 5 (line 143). -/
def pauseMsg : String :=
  "Multiple pause/resume events - consider if current settings match your workflow"

/-- Insight message of rule 6 (line 146; apostrophe elided). -/
def commandsMsg : String :=
  "Active user of voice commands - you are making the most of Restly features!"

/-- Insight rules 1-6 (lines 131-146), evaluated in source order on the
unrounded compliance value.  `0.3` is modelled as the rational 3/10. -/
def baseInsights (c : ℚ) (deep resched breaks pauses commands : Nat) : List String :=
  (if c < 50 then [lowComplianceMsg]
   else if c > 90 then [highComplianceMsg] else [])
  ++ (if deep > 0 then [deepWorkMsg deep] else [])
  ++ (if (resched : ℚ) > (breaks : ℚ) * (3 / 10) then [rescheduleMsg] else [])
  ++ (if pauses > 3 then [pauseMsg] else [])
  ++ (if commands > 5 then [commandsMsg] else [])

/-- Insight rule 7 (lines 148-152): top three hours of the histogram under the
stable descending sort, rendered as one message when any exist. -/
def peakInsight (hourly : List (Nat × Nat)) : List String :=
  let peak := (sortDesc hourly).take 3
  if peak.isEmpty then []
  else ["Most active hours: " ++ String.intercalate ", " (peak.map (fun p => fmtHour p.1))]

/-- The analysis aggregate returned by `analyze_daily_patterns`.  The
`breaks_completed` and `reschedule_count` fields are `Option` because the
dictionary returned on the empty-input branch (lines 59-69) carries neither
key, while the main branch (lines 154-166) carries both. -/
structure DailyAnalysis where
  total_breaks : Nat
  breaks_completed : Option Nat
  total_work_minutes : Int
  break_compliance : ℚ
  deep_work_sessions : Nat
  commands_used : Nat
  pause_events : Nat
  break_types : List (String × Nat)
  hourly_activity : List (Nat × Nat)
  reschedule_count : Option Nat
  insights : List String
deriving DecidableEq, Repr

/-- The unrounded break-compliance rate (line 126): guarded division,
`completed / shown * 100` when any break was shown, else 0. -/
def complianceOf (acts : List ActivityEvent) : ℚ :=
  if countType "break_shown" acts > 0 then
    (countType "break_completed" acts : ℚ) / (countType "break_shown" acts : ℚ) * 100
  else 0

/-- The full insight list (lines 129-152): rules 1-6 on the unrounded
compliance value, then the peak-hours rule. -/
def insightsOf (P : ParseFn) (acts : List ActivityEvent) : List String :=
  baseInsights (complianceOf acts) (countDeepWork acts)
    (countType "break_rescheduled" acts) (countType "break_shown" acts)
    (countType "pause_toggled" acts) (countType "command_received" acts)
  ++ peakInsight (hourlyOf P acts)

/-- `ActivityAnalyzer.analyze_daily_patterns` (lines 56-166). -/
def analyze_daily_patterns (P : ParseFn) (acts : List ActivityEvent) : DailyAnalysis :=
  if acts.isEmpty then
    { total_breaks := 0, breaks_completed := none, total_work_minutes := 0
      break_compliance := 0, deep_work_sessions := 0, commands_used := 0
      pause_events := 0, break_types := [], hourly_activity := []
      reschedule_count := none, insights := [] }
  else
    { total_breaks := countType "break_shown" acts
      breaks_completed := some (countType "break_completed" acts)
      total_work_minutes := finalWorkMinutes acts
      break_compliance := pyRound1 (complianceOf acts)
      deep_work_sessions := countDeepWork acts
      commands_used := countType "command_received" acts
      pause_events := countType "pause_toggled" acts
      break_types := breakTypesOf acts
      hourly_activity := hourlyOf P acts
      reschedule_count := some (countType "break_rescheduled" acts)
      insights := insightsOf P acts }

/-- The sort key of `min(activities, key=lambda x: x.get("timestamp", ""))`
(lines 175-176): the timestamp string, defaulting to `""` when absent. -/
def tsKey (e : ActivityEvent) : String := e.timestamp.getD ""

/-- Python `min(xs, key=key)` on a non-empty list: the first element attaining
the minimal key. -/
def pyMinBy (key : ActivityEvent → String) : List ActivityEvent → Option ActivityEvent
  | [] => none
  | x :: xs => some (xs.foldl (fun acc y => if strLt (key y) (key acc) then y else acc) x)

/-- Python `max(xs, key=key)` on a non-empty list: the first element attaining
the maximal key. -/
def pyMaxBy (key : ActivityEvent → String) : List ActivityEvent → Option ActivityEvent
  | [] => none
  | x :: xs => some (xs.foldl (fun acc y => if strLt (key acc) (key y) then y else acc) x)

/-- The daily summary document assembled by `generate_daily_summary`
(lines 187-194).  `generated_at` is the injected clock reading. -/
structure DailySummary where
  date : String
  total_activities : Nat
  active_duration_hours : ℚ
  analysis : DailyAnalysis
  raw_activities : List ActivityEvent
  generated_at : String
deriving DecidableEq, Repr

/-- The duration block of `generate_daily_summary` (lines 173-185): the
events with lexicographically extreme timestamp *strings* are selected, and
the result is 0 whenever the `try` body raises (`KeyError` on a missing
timestamp key, `ValueError` on a failed parse) or the list is empty. -/
def activeDurationOf (P : ParseFn) (activities : List ActivityEvent) : ℚ :=
  match pyMinBy tsKey activities, pyMaxBy tsKey activities with
  | some fe, some le =>
    match fe.timestamp, le.timestamp with
    | some s1, some s2 =>
      match P s1, P s2 with
      | some t1, some t2 => t2.absHours - t1.absHours
      | _, _ => 0
    | _, _ => 0
  | _, _ => 0

/-- `ActivityAnalyzer.generate_daily_summary` (lines 168-196), applied to the
decode results of the day's log lines. -/
def generateDailySummary (P : ParseFn) (date now : String)
    (lines : List (Option ActivityEvent)) : DailySummary :=
  let activities := loadDailyActivities lines
  let analysis := analyze_daily_patterns P activities
  { date := date
    total_activities := activities.length
    active_duration_hours := pyRound1 (activeDurationOf P activities)
    analysis := analysis
    raw_activities := activities
    generated_at := now }

/-- First maximal element of a non-empty association list under Python
`max(items, key=lambda x: x[1])`: a later element wins only when strictly
greater. -/
def pyMaxPair : List (String × Nat) → Option (String × Nat)
  | [] => none
  | x :: xs => some (xs.foldl (fun acc y => if acc.2 < y.2 then y else acc) x)

/-- `max(break_types.items(), key=lambda x: x[1])[0] if break_types else "none"`
(daily_summary lines 216-217 and dashboard_server lines 143-144): an empty
dict is falsy and yields the sentinel. -/
def preferredBreakType (bt : List (String × Nat)) : String :=
  match pyMaxPair bt with
  | some p => p.1
  | none => "none"

/-- The condensed AI-facing document built by `prepare_ai_summary_data`
(lines 203-227), with nested mappings flattened into named fields. -/
structure AIDoc where
  date : String
  total_work_minutes : Int
  break_compliance_rate : ℚ
  deep_work_sessions : Nat
  total_breaks_taken : Nat
  total_breaks_suggested : Nat
  commands_used : Nat
  pause_resume_events : Nat
  break_reschedules : Nat
  preferred_break_type : String
  peak_activity_hours : List Nat
  insights : List String
  recommendations_needed : List String
deriving DecidableEq, Repr

/-- The projection step of `prepare_ai_summary_data` (lines 202-229) as a
function of the summary document.  Indexing `summary["analysis"]["breaks_completed"]`
or `["reschedule_count"]` raises `KeyError` when the key is absent (the
empty-day analysis dict), modelled as `none`. -/
def prepareFromSummary (s : DailySummary) : Option AIDoc :=
  match s.analysis.breaks_completed, s.analysis.reschedule_count with
  | some bc, some rc =>
    some
      { date := s.date
        total_work_minutes := s.analysis.total_work_minutes
        break_compliance_rate := s.analysis.break_compliance
        deep_work_sessions := s.analysis.deep_work_sessions
        total_breaks_taken := bc
        total_breaks_suggested := s.analysis.total_breaks
        commands_used := s.analysis.commands_used
        pause_resume_events := s.analysis.pause_events
        break_reschedules := rc
        preferred_break_type := preferredBreakType s.analysis.break_types
        peak_activity_hours := s.analysis.hourly_activity.map Prod.fst
        insights := s.analysis.insights
        recommendations_needed :=
          ["break_frequency", "work_session_optimization",
           "eye_health_habits", "productivity_improvements"] }
  | _, _ => none

/-- `ActivityAnalyzer.prepare_ai_summary_data` (lines 198-229). -/
def prepare_ai_summary_data (P : ParseFn) (date now : String)
    (lines : List (Option ActivityEvent)) : Option AIDoc :=
  prepareFromSummary (generateDailySummary P date now lines)

/-- The four normalized scores of `get_dashboard_data` (dashboard_server
lines 58-62), internal full-precision values before presentation rounding. -/
structure ScoreModel where
  work_score : ℚ
  break_score : ℚ
  focus_score : ℚ
  overall_score : ℚ
deriving DecidableEq, Repr

/-- Score computation (dashboard_server lines 54-62): `work_minutes`,
`break_compliance` and `deep_work_sessions` are read from the analysis dict
with default 0 (the keys are always present). -/
def computeScores (a : DailyAnalysis) : ScoreModel :=
  let work_score : ℚ := min 100 ((a.total_work_minutes : ℚ) / 480 * 100)
  let break_score : ℚ := a.break_compliance
  let focus_score : ℚ := min 100 ((a.deep_work_sessions : ℚ) * 25)
  { work_score := work_score
    break_score := break_score
    focus_score := focus_score
    overall_score := (work_score + break_score + focus_score) / 3 }

/-- One element of the presentation document's `hourly_activity` array
(dashboard_server lines 90-94). -/
structure HourEntry where
  hour : Nat
  activity_count : Nat
  label : String
deriving DecidableEq, Repr

/-- `hourly_activity.get(hour, 0)` on the association-list model. -/
def lookupCount (l : List (Nat × Nat)) (h : Nat) : Nat :=
  ((l.find? (fun p => p.1 == h)).map Prod.snd).getD 0

/-- String-keyed association-list lookup with default 0, used to state
properties of the `break_types` counts. -/
def lookupStr (l : List (String × Nat)) (k : String) : Nat :=
  ((l.find? (fun p => p.1 == k)).map Prod.snd).getD 0

/-- The fixed demo histogram substituted by the dashboard when the day's
histogram is empty or all-zero (dashboard_server line 85). -/
def sampleHours : List (Nat × Nat) := [(9, 3), (10, 5), (11, 4), (14, 2), (15, 4), (16, 3)]

/-- The dashboard's hourly chart data (dashboard_server lines 78-94): the
day's histogram, replaced by `sampleHours` when empty or all-zero, expanded
over all 24 hours with default 0. -/
def dashboardHourly (hourly : List (Nat × Nat)) : List HourEntry :=
  let ha := if hourly.isEmpty || (hourly.map Prod.snd).sum == 0 then sampleHours else hourly
  (List.range 24).map (fun h => { hour := h, activity_count := lookupCount ha h, label := fmtHour h })

/-- The computational part of the response document of `get_dashboard_data`
(dashboard_server lines 96-146).  The subprocess-produced `ai_summary`, the
wall-clock `timestamp` and the constant ring colour/goal metadata are external
to the embedded computation. -/
structure DashboardData where
  date : String
  work_minutes : Int
  work_hours : ℚ
  break_compliance : ℚ
  deep_work_sessions : Nat
  total_breaks : Nat
  breaks_completed : Nat
  commands_used : Nat
  pause_events : Nat
  work_score : ℚ
  break_score : ℚ
  focus_score : ℚ
  overall_score : ℚ
  hourly_activity : List HourEntry
  insights : List String
  break_types : List (String × Nat)
  break_reschedules : Nat
  preferred_break_type : String
deriving DecidableEq, Repr

/-- `RestlyDashboard.get_dashboard_data` (dashboard_server lines 44-146),
applied to the decode results of the day's log lines.  Dict reads of the form
`analysis.get(k, 0)` on the two possibly-absent keys use default 0. -/
def getDashboardData (P : ParseFn) (date : String)
    (lines : List (Option ActivityEvent)) : DashboardData :=
  let activities := loadDailyActivities lines
  let analysis := analyze_daily_patterns P activities
  let sm := computeScores analysis
  { date := date
    work_minutes := analysis.total_work_minutes
    work_hours := pyRound1 ((analysis.total_work_minutes : ℚ) / 60)
    break_compliance := pyRound1 analysis.break_compliance
    deep_work_sessions := analysis.deep_work_sessions
    total_breaks := analysis.total_breaks
    breaks_completed := analysis.breaks_completed.getD 0
    commands_used := analysis.commands_used
    pause_events := analysis.pause_events
    work_score := pyRound1 sm.work_score
    break_score := pyRound1 sm.break_score
    focus_score := pyRound1 sm.focus_score
    overall_score := pyRound1 sm.overall_score
    hourly_activity := dashboardHourly analysis.hourly_activity
    insights := analysis.insights
    break_types := analysis.break_types
    break_reschedules := analysis.reschedule_count.getD 0
    preferred_break_type := preferredBreakType analysis.break_types }

/-- Modelled from the spec (§4.3): `active_duration_hours` as the spec words
it — the spread between the chronologically-earliest and -latest successfully
parsed timestamps, in hours rounded to 1 decimal, and 0 when fewer than two
parseable timestamps exist.  Used to compare the source's behaviour against
the specified one. -/
def specActiveDuration (P : ParseFn) (acts : List ActivityEvent) : ℚ :=
  match (acts.filterMap (fun e => e.timestamp.bind P)).map ParsedTime.absHours with
  | [] => 0
  | [_] => 0
  | v :: vs => pyRound1 ((vs.foldl max v) - (vs.foldl min v))

/-- The absolute-time reading of an event under parser `P`, 0 on parse
failure; used to phrase order-compatibility hypotheses decidably. -/
def absOf (P : ParseFn) (e : ActivityEvent) : ℚ :=
  match e.timestamp.bind P with
  | some t => t.absHours
  | none => 0

/-- A concrete timestamp parser used for witnesses and counterexamples:
a handful of fixed timestamps parse, anything else fails. -/
def testParse : ParseFn
  | "h09" => some ⟨9, 9⟩
  | "h14" => some ⟨14, 14⟩
  | "2024-01-01T08:00:00" => some ⟨8, 8⟩
  | "2024-01-01T12:00:00" => some ⟨12, 12⟩
  | _ => none

/-- A timestampless event of the given type. -/
def evType (t : String) : ActivityEvent := ⟨none, t, none, none, none⟩

/-- A `break_shown` event with the given `break_type`. -/
def evShown (bt : String) : ActivityEvent := ⟨none, "break_shown", some bt, none, none⟩

/-- An otherwise-inert event carrying the given timestamp. -/
def evAt (ts : String) : ActivityEvent := ⟨some ts, "noop", none, none, none⟩

/-- A log whose `break_completed` count exceeds its `break_shown` count. -/
def overCompletedLog : List ActivityEvent :=
  [evShown "eye_care", evType "break_completed", evType "break_completed"]

/-- Decoded log lines whose lexicographically largest timestamp string is
unparseable while two other timestamps parse. -/
def mixedTimestampLines : List (Option ActivityEvent) :=
  [some (evAt "2024-01-01T08:00:00"), some (evAt "2024-01-01T12:00:00"),
   some (evAt "not-a-date")]

/-! ### Supporting lemmas -/

theorem ratFloor_eq_floor (q : ℚ) : ratFloor q = ⌊q⌋ := Rat.floor_def.symm

theorem pyRound1_eq (q : ℚ) : pyRound1 q = (⌊q * 10 + 1 / 2⌋ : ℚ) / 10 := by
  rw [pyRound1, ratFloor_eq_floor]

theorem pyRound1_zero : pyRound1 0 = 0 := by
  rw [pyRound1_eq]
  norm_num

theorem pyRound1_nonneg {q : ℚ} (h : 0 ≤ q) : 0 ≤ pyRound1 q := by
  rw [pyRound1_eq]
  have h1 : (0 : ℤ) ≤ ⌊q * 10 + 1 / 2⌋ := Int.le_floor.mpr (by push_cast; linarith)
  have h2 : (0 : ℚ) ≤ (⌊q * 10 + 1 / 2⌋ : ℚ) := by exact_mod_cast h1
  linarith

theorem pyRound1_le_100 {q : ℚ} (h : q ≤ 100) : pyRound1 q ≤ 100 := by
  rw [pyRound1_eq]
  have h1 : (⌊q * 10 + 1 / 2⌋ : ℚ) ≤ q * 10 + 1 / 2 := Int.floor_le _
  have h2 : (⌊q * 10 + 1 / 2⌋ : ℚ) < 1001 := by linarith
  have h3 : ⌊q * 10 + 1 / 2⌋ < (1001 : ℤ) := by exact_mod_cast h2
  have h4 : ⌊q * 10 + 1 / 2⌋ ≤ (1000 : ℤ) := by omega
  have h5 : (⌊q * 10 + 1 / 2⌋ : ℚ) ≤ 1000 := by exact_mod_cast h4
  linarith

theorem loadDailyActivities_eq_filterMap (lines : List (Option ActivityEvent)) :
    loadDailyActivities lines = lines.filterMap id := by
  induction lines with
  | nil => rfl
  | cons o rest ih => cases o <;> simp [loadDailyActivities, List.filterMap_cons, ih]

/-! ### Claim theorems -/

/-- C1 (counterexample): on a log with one `break_shown` and two
`break_completed` events the analyzer's `break_compliance` is 200, outside
the claimed range [0, 100] — the claim's tolerance clause
(`breaks_completed > total_breaks`) contradicts its own bound. -/
theorem c1_compliance_counterexample :
    100 < (analyze_daily_patterns testParse overCompletedLog).break_compliance := by
  with_unfolding_all decide

/-- C1 (amended): `break_compliance` is 0 when `total_breaks = 0` and
`round(100 * breaks_completed / total_breaks, 1)` otherwise, and it lies in
[0, 100] under the additional hypothesis `breaks_completed ≤ total_breaks`
(without it the value can exceed 100, see the counterexample). -/
theorem c1_break_compliance_amended (P : ParseFn) (acts : List ActivityEvent)
    (h : (analyze_daily_patterns P acts).breaks_completed.getD 0 ≤
      (analyze_daily_patterns P acts).total_breaks) :
    ((analyze_daily_patterns P acts).total_breaks = 0 →
      (analyze_daily_patterns P acts).break_compliance = 0)
    ∧ ((analyze_daily_patterns P acts).total_breaks ≠ 0 →
      (analyze_daily_patterns P acts).break_compliance =
        pyRound1 (((analyze_daily_patterns P acts).breaks_completed.getD 0 : ℚ) /
          ((analyze_daily_patterns P acts).total_breaks : ℚ) * 100))
    ∧ 0 ≤ (analyze_daily_patterns P acts).break_compliance
    ∧ (analyze_daily_patterns P acts).break_compliance ≤ 100 := by
  by_cases he : acts.isEmpty
  · simp [analyze_daily_patterns, he]
  · simp only [analyze_daily_patterns, he, Bool.false_eq_true, if_false,
      Option.getD_some] at h ⊢
    rcases Nat.eq_zero_or_pos (countType "break_shown" acts) with hb | hb
    · have hk : countType "break_completed" acts = 0 := by omega
      simp [complianceOf, hb, hk, pyRound1_zero]
    · have hc : complianceOf acts =
          (countType "break_completed" acts : ℚ) / (countType "break_shown" acts : ℚ) * 100 := by
        simp [complianceOf, hb]
      have hbq : (0 : ℚ) < (countType "break_shown" acts : ℚ) := by exact_mod_cast hb
      have hle : (countType "break_completed" acts : ℚ) ≤ (countType "break_shown" acts : ℚ) := by
        exact_mod_cast h
      have h0 : (0 : ℚ) ≤ complianceOf acts := by
        rw [hc]; positivity

      have h100 : complianceOf acts ≤ 100 := by
        rw [hc]
        have hdiv : (countType "break_completed" acts : ℚ) /
            (countType "break_shown" acts : ℚ) ≤ 1 := (div_le_one hbq).mpr hle
        nlinarith
      refine ⟨fun h0' => absurd h0' (by omega), fun _ => by rw [hc], ?_, ?_⟩
      · exact pyRound1_nonneg h0
      · exact pyRound1_le_100 h100

/-- C1 (witness): the amended bound instantiated on a concrete compliant
log. -/
theorem c1_break_compliance_amended_witness :
    0 ≤ (analyze_daily_patterns testParse
        [evShown "eye_care", evType "break_completed"]).break_compliance
    ∧ (analyze_daily_patterns testParse
        [evShown "eye_care", evType "break_completed"]).break_compliance ≤ 100 := by
  have h := c1_break_compliance_amended testParse
    [evShown "eye_care", evType "break_completed"] (by with_unfolding_all decide)
  exact ⟨h.2.2.1, h.2.2.2⟩

/-- C2 (counterexample): the break score is a passthrough of
`break_compliance`, so on the over-completed log it is 200 — outside the
claimed [0, 100], even though `work_minutes` and `deep_work_sessions` are
non-negative. -/
theorem c2_scores_counterexample :
    100 < (computeScores (analyze_daily_patterns testParse overCompletedLog)).break_score := by
  with_unfolding_all decide

/-- C2 (amended): for non-negative work minutes, the scores are all in
[0, 100] under the additional hypothesis that the analysis's
`break_compliance` is itself in [0, 100] (which the counterexample shows is
not automatic); `break_score` is a passthrough and `overall_score` the
unweighted mean unconditionally. -/
theorem c2_scores_amended (a : DailyAnalysis)
    (h1 : 0 ≤ a.total_work_minutes)
    (h2 : 0 ≤ a.break_compliance) (h3 : a.break_compliance ≤ 100) :
    (computeScores a).break_score = a.break_compliance
    ∧ (computeScores a).overall_score =
      ((computeScores a).work_score + (computeScores a).break_score +
        (computeScores a).focus_score) / 3
    ∧ (0 ≤ (computeScores a).work_score ∧ (computeScores a).work_score ≤ 100)
    ∧ (0 ≤ (computeScores a).break_score ∧ (computeScores a).break_score ≤ 100)
    ∧ (0 ≤ (computeScores a).focus_score ∧ (computeScores a).focus_score ≤ 100)
    ∧ (0 ≤ (computeScores a).overall_score ∧ (computeScores a).overall_score ≤ 100) := by
  have hw0 : (0 : ℚ) ≤ (a.total_work_minutes : ℚ) / 480 * 100 := by
    have : (0 : ℚ) ≤ (a.total_work_minutes : ℚ) := by exact_mod_cast h1
    positivity
  have hf0 : (0 : ℚ) ≤ (a.deep_work_sessions : ℚ) * 25 := by positivity
  have hw1 : 0 ≤ min (100 : ℚ) ((a.total_work_minutes : ℚ) / 480 * 100) := le_min (by norm_num) hw0
  have hw2 : min (100 : ℚ) ((a.total_work_minutes : ℚ) / 480 * 100) ≤ 100 := min_le_left _ _
  have hf1 : 0 ≤ min (100 : ℚ) ((a.deep_work_sessions : ℚ) * 25) := le_min (by norm_num) hf0
  have hf2 : min (100 : ℚ) ((a.deep_work_sessions : ℚ) * 25) ≤ 100 := min_le_left _ _
  refine ⟨rfl, rfl, ⟨hw1, hw2⟩, ⟨h2, h3⟩, ⟨hf1, hf2⟩, ?_, ?_⟩
  · simp only [computeScores]
    have h3' : (0 : ℚ) < 3 := by norm_num
    rw [le_div_iff₀ h3']
    linarith
  · simp only [computeScores]
    have h3' : (0 : ℚ) < 3 := by norm_num
    rw [div_le_iff₀ h3']
    linarith

/-- C2 (witness): the amended score bounds instantiated on a concrete
analysis record with compliance 50. -/
theorem c2_scores_amended_witness :
    0 ≤ (computeScores ⟨0, none, 0, 50, 0, 0, 0, [], [], none, []⟩).overall_score
    ∧ (computeScores ⟨0, none, 0, 50, 0, 0, 0, [], [], none, []⟩).overall_score ≤ 100 :=
  (c2_scores_amended ⟨0, none, 0, 50, 0, 0, 0, [], [], none, []⟩
    (by norm_num) (by norm_num) (by norm_num)).2.2.2.2.2

/-- C3 (code evaluation): on the empty event sequence the analysis record
has zero counters and empty maps and insights, but the `breaks_completed`
and `reschedule_count` keys are absent (`none`) — the source's empty-input
dictionary (daily_summary lines 59-69) omits them, which makes
`prepare_ai_summary_data` raise `KeyError` on an empty day. -/
theorem c3_empty_analysis_eval :
    analyze_daily_patterns testParse [] = ⟨0, none, 0, 0, 0, 0, 0, [], [], none, []⟩
    ∧ prepare_ai_summary_data testParse "2024-01-01" "t" [] = none := by
  with_unfolding_all decide

/-- C4 (confirmed): decoding failures are skipped before the reducer — the
loader returns exactly the successfully decoded records, `total_activities`
counts only those, and the analysis is a function of the decoded records
alone. -/
theorem c4_malformed_lines_skipped (P : ParseFn) (date now : String)
    (lines : List (Option ActivityEvent)) :
    loadDailyActivities lines = lines.filterMap id
    ∧ (generateDailySummary P date now lines).total_activities = (lines.filterMap id).length
    ∧ (generateDailySummary P date now lines).analysis =
      analyze_daily_patterns P (lines.filterMap id) := by
  have hl := loadDailyActivities_eq_filterMap lines
  exact ⟨hl, by simp [generateDailySummary, hl], by simp [generateDailySummary, hl]⟩

theorem bumpHour_pos {l : List (Nat × Nat)} (hl : ∀ p ∈ l, 0 < p.2) (h : Nat) :
    ∀ p ∈ bumpHour h l, 0 < p.2 := by
  induction l with
  | nil =>
    intro p hp
    simp only [bumpHour, List.mem_singleton] at hp
    subst hp
    exact Nat.one_pos
  | cons q rest ih =>
    obtain ⟨k, c⟩ := q
    intro p hp
    have hrest : ∀ p ∈ rest, 0 < p.2 := fun p hp => hl p (List.mem_cons_of_mem _ hp)
    by_cases hk : (k == h) = true
    · simp only [bumpHour, hk, if_true] at hp
      cases hp with
      | head => exact Nat.succ_pos c
      | tail _ hp => exact hrest p hp
    · simp only [bumpHour, hk, if_false] at hp
      cases hp with
      | head => exact hl (k, c) (List.mem_cons_self _ _)
      | tail _ hp => exact ih hrest p hp

theorem foldl_hourly_pos (P : ParseFn) :
    ∀ (acts : List ActivityEvent) (l : List (Nat × Nat)), (∀ p ∈ l, 0 < p.2) →
      ∀ p ∈ acts.foldl
        (fun ha e =>
          match e.timestamp.bind P with
          | some pt => bumpHour pt.hour ha
          | none => ha) l, 0 < p.2 := by
  intro acts
  induction acts with
  | nil => intro l hl; simpa using hl
  | cons e rest ih =>
    intro l hl
    simp only [List.foldl_cons]
    apply ih
    cases he : e.timestamp.bind P with
    | none => simpa [he] using hl
    | some pt => simpa [he] using bumpHour_pos hl pt.hour

theorem hourlyOf_pos (P : ParseFn) (acts : List ActivityEvent) :
    ∀ p ∈ hourlyOf P acts, 0 < p.2 :=
  foldl_hourly_pos P acts [] (by simp)

theorem hourly_sum_ne_zero {l : List (Nat × Nat)} (hne : l ≠ [])
    (hpos : ∀ p ∈ l, 0 < p.2) : (l.map Prod.snd).sum ≠ 0 := by
  cases l with
  | nil => exact absurd rfl hne
  | cons p rest =>
    have hp : 0 < p.2 := hpos p (List.mem_cons_self _ _)
    simp only [List.map_cons, List.sum_cons]
    omega

/-- C5 (counterexample): on a date with no events at all, the dashboard
substitutes a fixed demo histogram (dashboard_server lines 83-86), so the
hourly counts are not all zero-filled — the entry for hour 9 reports 3. -/
theorem c5_hourly_counterexample :
    (getDashboardData testParse "2024-01-01" []).hourly_activity[9]? =
      some ⟨9, 3, "09:00"⟩
    ∧ (getDashboardData testParse "2024-01-01" []).hourly_activity.map
        (fun e => e.activity_count) ≠ List.replicate 24 0 := by
  with_unfolding_all decide

/-- C5 (amended): the presentation document always lists all 24 hours
exactly once, and the counts are zero-filled from the day's actual histogram
whenever that histogram is non-empty; on an empty (or all-zero) histogram a
fixed demo sample is substituted instead of zeros. -/
theorem c5_hourly_amended (P : ParseFn) (date : String)
    (lines : List (Option ActivityEvent)) :
    (getDashboardData P date lines).hourly_activity.map (fun e => e.hour) = List.range 24
    ∧ ((analyze_daily_patterns P (loadDailyActivities lines)).hourly_activity ≠ [] →
      (getDashboardData P date lines).hourly_activity.map (fun e => e.activity_count) =
        (List.range 24).map
          (lookupCount (analyze_daily_patterns P (loadDailyActivities lines)).hourly_activity)) := by
  constructor
  · show (dashboardHourly _).map (fun e => e.hour) = List.range 24
    unfold dashboardHourly
    rw [List.map_map]
    show (List.range 24).map (fun h => h) = List.range 24
    simp
  · intro hne
    have hhourly : (analyze_daily_patterns P (loadDailyActivities lines)).hourly_activity =
        hourlyOf P (loadDailyActivities lines) := by
      by_cases he : (loadDailyActivities lines).isEmpty
      · exfalso
        apply hne
        simp [analyze_daily_patterns, he]
      · simp [analyze_daily_patterns, he]
    have hpos : ∀ p ∈ (analyze_daily_patterns P (loadDailyActivities lines)).hourly_activity,
        0 < p.2 := by
      rw [hhourly]
      exact hourlyOf_pos P (loadDailyActivities lines)
    have hsum := hourly_sum_ne_zero hne hpos
    simp only [getDashboardData, dashboardHourly]
    rw [if_neg]
    · simp [List.map_map, Function.comp]
    · simp only [Bool.or_eq_true, beq_iff_eq, List.isEmpty_iff, not_or]
      exact ⟨hne, hsum⟩

/-- C5 (witness): the amended statement instantiated on a day with one
bucketed event at hour 9. -/
theorem c5_hourly_amended_witness :
    (getDashboardData testParse "2024-01-01" [some (evAt "h09")]).hourly_activity.map
        (fun e => e.hour) = List.range 24
    ∧ (getDashboardData testParse "2024-01-01" [some (evAt "h09")]).hourly_activity.map
        (fun e => e.activity_count) =
      (List.range 24).map
        (lookupCount (analyze_daily_patterns testParse
          (loadDailyActivities [some (evAt "h09")])).hourly_activity) := by
  have h := c5_hourly_amended testParse "2024-01-01" [some (evAt "h09")]
  exact ⟨h.1, h.2 (by with_unfolding_all decide)⟩

theorem head_most (r : String) : ("Most active hours: " ++ r).data.head? = some 'M' := rfl

theorem head_deep (n : Nat) : (deepWorkMsg n).data.head? = some 'U' := rfl

theorem mostActive_ne_reschedule (r : String) : "Most active hours: " ++ r ≠ rescheduleMsg := by
  intro h
  have h2 : ("Most active hours: " ++ r).data.head? = rescheduleMsg.data.head? := by rw [h]
  rw [head_most] at h2
  simp [rescheduleMsg] at h2

theorem deepWork_ne_reschedule (n : Nat) : deepWorkMsg n ≠ rescheduleMsg := by
  intro h
  have h2 : (deepWorkMsg n).data.head? = rescheduleMsg.data.head? := by rw [h]
  rw [head_deep] at h2
  simp [rescheduleMsg] at h2

theorem reschedule_not_mem_peak (hourly : List (Nat × Nat)) :
    rescheduleMsg ∉ peakInsight hourly := by
  by_cases hp : (List.take 3 (sortDesc hourly)).isEmpty
  · simp [peakInsight, hp]
  · simp only [peakInsight, hp, Bool.false_eq_true, if_false, List.mem_singleton]
    intro h
    exact mostActive_ne_reschedule _ h.symm

theorem reschedule_mem_base_iff (c : ℚ) (deep resched breaks pauses commands : Nat) :
    rescheduleMsg ∈ baseInsights c deep resched breaks pauses commands ↔
      (resched : ℚ) > (breaks : ℚ) * (3 / 10) := by
  unfold baseInsights
  have h1 : rescheduleMsg ≠ lowComplianceMsg := by decide
  have h2 : rescheduleMsg ≠ highComplianceMsg := by decide
  have h3 : rescheduleMsg ≠ pauseMsg := by decide
  have h4 : rescheduleMsg ≠ commandsMsg := by decide
  have h5 : ∀ n, rescheduleMsg ≠ deepWorkMsg n := fun n h => deepWork_ne_reschedule n h.symm
  split_ifs with hc1 hc2 hd hr hp hcm <;>
    simp_all [List.mem_append, List.mem_singleton]

/-- C6 (counterexample): a log with a single `break_rescheduled` event and no
`break_shown` events has `total_breaks = 0`, yet the frequent-reschedule
insight IS emitted — in the source `1 > 0 * 0.3` is true, so the condition is
not vacuously false at `total_breaks == 0`. -/
theorem c6_reschedule_counterexample :
    (analyze_daily_patterns testParse [evType "break_rescheduled"]).total_breaks = 0
    ∧ rescheduleMsg ∈ (analyze_daily_patterns testParse [evType "break_rescheduled"]).insights := by
  with_unfolding_all decide

/-- C6 (amended): the frequent-reschedule insight fires exactly when
`reschedule_count > 0.3 * total_breaks`; at `total_breaks = 0` this is
`reschedule_count > 0`, so any `break_rescheduled` event triggers it even
when no break was ever shown. -/
theorem c6_reschedule_amended (P : ParseFn) (acts : List ActivityEvent) :
    rescheduleMsg ∈ (analyze_daily_patterns P acts).insights ↔
      (((analyze_daily_patterns P acts).reschedule_count.getD 0 : ℚ) >
        ((analyze_daily_patterns P acts).total_breaks : ℚ) * (3 / 10)) := by
  by_cases he : acts.isEmpty
  · simp [analyze_daily_patterns, he]
  · simp only [analyze_daily_patterns, he, Bool.false_eq_true, if_false, Option.getD_some,
      insightsOf, List.mem_append]
    rw [reschedule_mem_base_iff]
    have := reschedule_not_mem_peak (hourlyOf P acts)
    simp [this]

/-- C6 (witness): the amended rule instantiated on the one-reschedule log. -/
theorem c6_reschedule_amended_witness :
    rescheduleMsg ∈ (analyze_daily_patterns testParse [evType "break_rescheduled"]).insights ↔
      (((analyze_daily_patterns testParse
          [evType "break_rescheduled"]).reschedule_count.getD 0 : ℚ) >
        ((analyze_daily_patterns testParse
          [evType "break_rescheduled"]).total_breaks : ℚ) * (3 / 10)) :=
  c6_reschedule_amended testParse [evType "break_rescheduled"]

theorem insertDesc_ne_nil (x : Nat × Nat) (l : List (Nat × Nat)) : insertDesc x l ≠ [] := by
  cases l with
  | nil => simp [insertDesc]
  | cons y ys =>
    unfold insertDesc
    split_ifs <;> simp

theorem sortDesc_ne_nil {l : List (Nat × Nat)} (h : l ≠ []) : sortDesc l ≠ [] := by
  cases l with
  | nil => exact absurd rfl h
  | cons x xs => exact insertDesc_ne_nil x (sortDesc xs)

theorem mem_insertDesc {x y : Nat × Nat} :
    ∀ {l : List (Nat × Nat)}, y ∈ insertDesc x l → y = x ∨ y ∈ l := by
  intro l
  induction l with
  | nil => intro h; simp [insertDesc] at h; exact Or.inl h
  | cons z zs ih =>
    intro h
    unfold insertDesc at h
    split_ifs at h with hx
    · cases h with
      | head => exact Or.inr (List.mem_cons_self _ _)
      | tail _ h =>
        rcases ih h with h | h
        · exact Or.inl h
        · exact Or.inr (List.mem_cons_of_mem _ h)
    · cases h with
      | head => exact Or.inl rfl
      | tail _ h => exact Or.inr h

theorem pairwise_insertDesc (x : Nat × Nat) {l : List (Nat × Nat)}
    (h : l.Pairwise (fun a b => b.2 ≤ a.2)) :
    (insertDesc x l).Pairwise (fun a b => b.2 ≤ a.2) := by
  induction l with
  | nil => simp [insertDesc]
  | cons y ys ih =>
    rcases List.pairwise_cons.mp h with ⟨hy, hys⟩
    unfold insertDesc
    split_ifs with hx
    · refine List.pairwise_cons.mpr ⟨?_, ih hys⟩
      intro z hz
      rcases mem_insertDesc hz with rfl | hz
      · exact Nat.le_of_lt hx
      · exact hy z hz
    · refine List.pairwise_cons.mpr ⟨?_, h⟩
      intro z hz
      cases hz with
      | head => exact Nat.le_of_not_lt hx
      | tail _ hz => exact Nat.le_trans (hy z hz) (Nat.le_of_not_lt hx)

theorem sortDesc_pairwise (l : List (Nat × Nat)) :
    (sortDesc l).Pairwise (fun a b => b.2 ≤ a.2) := by
  induction l with
  | nil => simp [sortDesc]
  | cons x xs ih => exact pairwise_insertDesc x ih

theorem take3_ne_nil {l : List (Nat × Nat)} (h : l ≠ []) : l.take 3 ≠ [] := by
  cases l with
  | nil => exact absurd rfl h
  | cons x xs => simp [List.take]

/-- C8 (counterexample): two one-event hours visited in the order 14 then 9
give the insight "Most active hours: 14:00, 09:00" — ties are NOT broken by
ascending hour number (that would give "09:00, 14:00"); Python's stable sort
keeps dict insertion order, so the rendered list depends on the order in
which hours first appeared in the event stream. -/
theorem c8_peak_counterexample :
    "Most active hours: 14:00, 09:00" ∈
      (analyze_daily_patterns testParse [evAt "h14", evAt "h09"]).insights
    ∧ "Most active hours: 09:00, 14:00" ∉
      (analyze_daily_patterns testParse [evAt "h14", evAt "h09"]).insights := by
  with_unfolding_all decide

/-- C8 (amended): whenever the hourly histogram is non-empty, the final
insight is the "most active hours" message rendering the first three entries
of the stable descending-by-count sort of the histogram — descending counts
with ties in first-appearance order, not ascending hour order. -/
theorem c8_peak_amended (P : ParseFn) (acts : List ActivityEvent)
    (h : (analyze_daily_patterns P acts).hourly_activity ≠ []) :
    (analyze_daily_patterns P acts).insights.getLast? =
      some ("Most active hours: " ++ String.intercalate ", "
        (((sortDesc (analyze_daily_patterns P acts).hourly_activity).take 3).map
          (fun p => fmtHour p.1)))
    ∧ (sortDesc (analyze_daily_patterns P acts).hourly_activity).Pairwise
        (fun a b => b.2 ≤ a.2) := by
  have he : ¬ acts.isEmpty := by
    intro he
    apply h
    simp [analyze_daily_patterns, he]
  have hh : (analyze_daily_patterns P acts).hourly_activity = hourlyOf P acts := by
    simp [analyze_daily_patterns, he]
  have hne : ((sortDesc (hourlyOf P acts)).take 3) ≠ [] :=
    take3_ne_nil (sortDesc_ne_nil (by rw [← hh]; exact h))
  constructor
  · have hins : (analyze_daily_patterns P acts).insights = insightsOf P acts := by
      simp [analyze_daily_patterns, he]
    rw [hins, hh]
    simp only [insightsOf, peakInsight]
    rw [if_neg (by simpa using hne)]
    rw [List.getLast?_concat]
  · rw [hh]
    exact sortDesc_pairwise _

/-- C8 (witness): the amended statement instantiated on the two-hour log. -/
theorem c8_peak_amended_witness :
    (analyze_daily_patterns testParse [evAt "h14", evAt "h09"]).insights.getLast? =
      some ("Most active hours: " ++ String.intercalate ", "
        (((sortDesc (analyze_daily_patterns testParse
            [evAt "h14", evAt "h09"]).hourly_activity).take 3).map
          (fun p => fmtHour p.1)))
    ∧ (sortDesc (analyze_daily_patterns testParse
        [evAt "h14", evAt "h09"]).hourly_activity).Pairwise
        (fun a b => b.2 ≤ a.2) :=
  c8_peak_amended testParse [evAt "h14", evAt "h09"] (by with_unfolding_all decide)

theorem bumpKey_pair_shape (k : String) (n m : Nat) :
    ∃ x y, bumpKey k [("eye_care", n), ("custom_message", m)] =
      [("eye_care", x), ("custom_message", y)] := by
  simp only [bumpKey]
  split_ifs <;> exact ⟨_, _, rfl⟩

theorem breakTypesFold_shape (acts : List ActivityEvent) : ∀ n m : Nat, ∃ x y,
    acts.foldl
      (fun bt e =>
        if e.event_type == "break_shown" then bumpKey (e.break_type.getD "unknown") bt
        else bt)
      [("eye_care", n), ("custom_message", m)] = [("eye_care", x), ("custom_message", y)] := by
  induction acts with
  | nil => exact fun n m => ⟨n, m, rfl⟩
  | cons e rest ih =>
    intro n m
    simp only [List.foldl_cons]
    by_cases he : (e.event_type == "break_shown") = true
    · obtain ⟨x, y, hxy⟩ := bumpKey_pair_shape (e.break_type.getD "unknown") n m
      rw [if_pos he, hxy]
      exact ih x y
    · rw [if_neg he]
      exact ih n m

theorem breakTypesOf_shape (acts : List ActivityEvent) :
    ∃ x y, breakTypesOf acts = [("eye_care", x), ("custom_message", y)] :=
  breakTypesFold_shape acts 0 0

theorem preferred_pair (x y : Nat) :
    preferredBreakType [("eye_care", x), ("custom_message", y)] =
      if x < y then "custom_message" else "eye_care" := by
  unfold preferredBreakType pyMaxPair
  simp only [List.foldl_cons, List.foldl_nil]
  split_ifs <;> rfl

theorem lookup_pair_eye (x y : Nat) :
    lookupStr [("eye_care", x), ("custom_message", y)] "eye_care" = x := rfl

theorem lookup_pair_custom (x y : Nat) :
    lookupStr [("eye_care", x), ("custom_message", y)] "custom_message" = y := rfl

/-- C9 (counterexample): a day whose only event is a `break_shown` with an
unrecognised break type yields the all-zero map
`{eye_care: 0, custom_message: 0}`, and the AI document's preferred break
type is "eye_care", not the claimed sentinel "none" — a non-empty all-zero
dict is truthy, so the `max` scan picks its first key. -/
theorem c9_preferred_counterexample :
    (analyze_daily_patterns testParse [evShown "unknown"]).break_types.map Prod.snd = [0, 0]
    ∧ (prepare_ai_summary_data testParse "2024-01-01" "t" [some (evShown "unknown")]).map
        (fun d => d.preferred_break_type) = some "eye_care" := by
  with_unfolding_all decide

/-- C9 (amended): the sentinel "none" appears only for the empty map (the
empty-day analysis); for any non-empty event list the analyzer's
`break_types` always carries both fixed keys and the preferred type is
"custom_message" exactly when its count strictly exceeds the `eye_care`
count — so `eye_care` wins all ties, including the all-zero map. -/
theorem c9_preferred_amended (P : ParseFn) (acts : List ActivityEvent) (h : acts ≠ []) :
    preferredBreakType [] = "none"
    ∧ preferredBreakType (analyze_daily_patterns P acts).break_types =
      (if lookupStr (analyze_daily_patterns P acts).break_types "eye_care" <
          lookupStr (analyze_daily_patterns P acts).break_types "custom_message"
        then "custom_message" else "eye_care") := by
  have he : ¬ acts.isEmpty := by simpa [List.isEmpty_iff] using h
  have hbt : (analyze_daily_patterns P acts).break_types = breakTypesOf acts := by
    simp [analyze_daily_patterns, he]
  obtain ⟨x, y, hxy⟩ := breakTypesOf_shape acts
  refine ⟨rfl, ?_⟩
  rw [hbt, hxy, preferred_pair, lookup_pair_eye, lookup_pair_custom]

/-- C9 (witness): the amended statement instantiated on the
unknown-break-type log. -/
theorem c9_preferred_amended_witness :
    preferredBreakType [] = "none"
    ∧ preferredBreakType (analyze_daily_patterns testParse [evShown "unknown"]).break_types =
      (if lookupStr (analyze_daily_patterns testParse
            [evShown "unknown"]).break_types "eye_care" <
          lookupStr (analyze_daily_patterns testParse
            [evShown "unknown"]).break_types "custom_message"
        then "custom_message" else "eye_care") :=
  c9_preferred_amended testParse [evShown "unknown"] (by simp)


theorem charsLt_irrefl : ∀ l : List Char, charsLt l l = false := by
  intro l
  induction l with
  | nil => rfl
  | cons a as ih =>
    simp only [charsLt, Nat.lt_irrefl, if_false]
    exact ih

theorem charsLt_asymm : ∀ (a b : List Char), charsLt a b = true → charsLt b a = false := by
  intro a
  induction a with
  | nil =>
    intro b h
    cases b with
    | nil => simp [charsLt] at h
    | cons y ys => rfl
  | cons x xs ih =>
    intro b h
    cases b with
    | nil => simp [charsLt] at h
    | cons y ys =>
      simp only [charsLt] at h ⊢
      by_cases h1 : x.toNat < y.toNat
      · rw [if_neg (by omega), if_pos h1]
      · by_cases h2 : y.toNat < x.toNat
        · rw [if_neg h1, if_pos h2] at h
          exact absurd h (by simp)
        · rw [if_neg h1, if_neg h2] at h
          rw [if_neg h2, if_neg h1]
          exact ih ys h

theorem charsLt_false_trans :
    ∀ (a b c : List Char), charsLt b a = false → charsLt c b = false → charsLt c a = false := by
  intro a
  induction a with
  | nil =>
    intro b c _ _
    cases c with
    | nil => rfl
    | cons z zs => rfl
  | cons x xs ih =>
    intro b c h1 h2
    cases b with
    | nil => simp [charsLt] at h1
    | cons y ys =>
      cases c with
      | nil => simp [charsLt] at h2
      | cons z zs =>
        simp only [charsLt] at h1 h2 ⊢
        by_cases hyx : y.toNat < x.toNat
        · rw [if_pos hyx] at h1
          exact absurd h1 (by simp)
        · by_cases hzy : z.toNat < y.toNat
          · rw [if_pos hzy] at h2
            exact absurd h2 (by simp)
          · rw [if_neg (show ¬ z.toNat < x.toNat by omega)]
            by_cases hxz : x.toNat < z.toNat
            · rw [if_pos hxz]
            · rw [if_neg hxz]
              rw [if_neg hyx, if_neg (show ¬ x.toNat < y.toNat by omega)] at h1
              rw [if_neg hzy, if_neg (show ¬ y.toNat < z.toNat by omega)] at h2
              exact ih ys zs h1 h2

theorem strLe_refl (s : String) : strLe s s = true := by
  simp [strLe, strLt, charsLt_irrefl]

theorem strLt_le {s t : String} (h : strLt s t = true) : strLe s t = true := by
  simp only [strLe, strLt] at h ⊢
  rw [charsLt_asymm _ _ h]
  rfl

theorem strLe_of_not_lt {s t : String} (h : strLt s t = false) : strLe t s = true := by
  simp [strLe, h]

theorem strLe_trans {a b c : String} (h1 : strLe a b = true) (h2 : strLe b c = true) :
    strLe a c = true := by
  simp only [strLe, strLt, Bool.not_eq_true'] at h1 h2 ⊢
  exact charsLt_false_trans a.data b.data c.data h1 h2

theorem foldl_max_by_spec (key : ActivityEvent → String) :
    ∀ (xs : List ActivityEvent) (acc : ActivityEvent),
      (xs.foldl (fun acc y => if strLt (key acc) (key y) then y else acc) acc = acc
        ∨ xs.foldl (fun acc y => if strLt (key acc) (key y) then y else acc) acc ∈ xs)
      ∧ strLe (key acc)
          (key (xs.foldl (fun acc y => if strLt (key acc) (key y) then y else acc) acc)) = true
      ∧ ∀ y ∈ xs, strLe (key y)
          (key (xs.foldl (fun acc y => if strLt (key acc) (key y) then y else acc) acc)) = true := by
  intro xs
  induction xs with
  | nil => intro acc; exact ⟨Or.inl rfl, strLe_refl _, by simp⟩
  | cons y ys ih =>
    intro acc
    simp only [List.foldl_cons]
    by_cases hc : strLt (key acc) (key y) = true
    · rw [if_pos hc]
      obtain ⟨hmem, hle, hall⟩ := ih y
      refine ⟨?_, strLe_trans (strLt_le hc) hle, ?_⟩
      · rcases hmem with h | h
        · exact Or.inr (by rw [h]; exact List.mem_cons_self _ _)
        · exact Or.inr (List.mem_cons_of_mem _ h)
      · intro z hz
        cases hz with
        | head => exact hle
        | tail _ hz => exact hall z hz
    · rw [if_neg hc]
      obtain ⟨hmem, hle, hall⟩ := ih acc
      have hf : strLt (key acc) (key y) = false := by
        revert hc; cases strLt (key acc) (key y) <;> simp
      have hyacc : strLe (key y) (key acc) = true := strLe_of_not_lt hf
      refine ⟨?_, hle, ?_⟩
      · rcases hmem with h | h
        · exact Or.inl h
        · exact Or.inr (List.mem_cons_of_mem _ h)
      · intro z hz
        cases hz with
        | head => exact strLe_trans hyacc hle
        | tail _ hz => exact hall z hz

theorem foldl_min_by_spec (key : ActivityEvent → String) :
    ∀ (xs : List ActivityEvent) (acc : ActivityEvent),
      (xs.foldl (fun acc y => if strLt (key y) (key acc) then y else acc) acc = acc
        ∨ xs.foldl (fun acc y => if strLt (key y) (key acc) then y else acc) acc ∈ xs)
      ∧ strLe (key (xs.foldl (fun acc y => if strLt (key y) (key acc) then y else acc) acc))
          (key acc) = true
      ∧ ∀ y ∈ xs, strLe (key (xs.foldl (fun acc y => if strLt (key y) (key acc) then y else acc) acc))
          (key y) = true := by
  intro xs
  induction xs with
  | nil => intro acc; exact ⟨Or.inl rfl, strLe_refl _, by simp⟩
  | cons y ys ih =>
    intro acc
    simp only [List.foldl_cons]
    by_cases hc : strLt (key y) (key acc) = true
    · rw [if_pos hc]
      obtain ⟨hmem, hle, hall⟩ := ih y
      refine ⟨?_, strLe_trans hle (strLt_le hc), ?_⟩
      · rcases hmem with h | h
        · exact Or.inr (by rw [h]; exact List.mem_cons_self _ _)
        · exact Or.inr (List.mem_cons_of_mem _ h)
      · intro z hz
        cases hz with
        | head => exact hle
        | tail _ hz => exact hall z hz
    · rw [if_neg hc]
      obtain ⟨hmem, hle, hall⟩ := ih acc
      have hf : strLt (key y) (key acc) = false := by
        revert hc; cases strLt (key y) (key acc) <;> simp
      have haccy : strLe (key acc) (key y) = true := strLe_of_not_lt hf
      refine ⟨?_, hle, ?_⟩
      · rcases hmem with h | h
        · exact Or.inl h
        · exact Or.inr (List.mem_cons_of_mem _ h)
      · intro z hz
        cases hz with
        | head => exact strLe_trans hle haccy
        | tail _ hz => exact hall z hz

theorem pyMaxBy_spec (key : ActivityEvent → String) (x : ActivityEvent)
    (xs : List ActivityEvent) :
    ∃ m, pyMaxBy key (x :: xs) = some m ∧ m ∈ x :: xs
      ∧ ∀ y ∈ x :: xs, strLe (key y) (key m) = true := by
  obtain ⟨hmem, hle, hall⟩ := foldl_max_by_spec key xs x
  refine ⟨_, rfl, ?_, ?_⟩
  · rcases hmem with h | h
    · rw [h]; exact List.mem_cons_self _ _
    · exact List.mem_cons_of_mem _ h
  · intro y hy
    cases hy with
    | head => exact hle
    | tail _ hy => exact hall y hy

theorem pyMinBy_spec (key : ActivityEvent → String) (x : ActivityEvent)
    (xs : List ActivityEvent) :
    ∃ m, pyMinBy key (x :: xs) = some m ∧ m ∈ x :: xs
      ∧ ∀ y ∈ x :: xs, strLe (key m) (key y) = true := by
  obtain ⟨hmem, hle, hall⟩ := foldl_min_by_spec key xs x
  refine ⟨_, rfl, ?_, ?_⟩
  · rcases hmem with h | h
    · rw [h]; exact List.mem_cons_self _ _
    · exact List.mem_cons_of_mem _ h
  · intro y hy
    cases hy with
    | head => exact hle
    | tail _ hy => exact hall y hy

theorem foldl_max_q_spec : ∀ (vs : List ℚ) (v : ℚ),
    (vs.foldl max v = v ∨ vs.foldl max v ∈ vs)
    ∧ v ≤ vs.foldl max v ∧ ∀ w ∈ vs, w ≤ vs.foldl max v := by
  intro vs
  induction vs with
  | nil => intro v; exact ⟨Or.inl rfl, le_refl v, by simp⟩
  | cons w ws ih =>
    intro v
    simp only [List.foldl_cons]
    obtain ⟨hmem, hle, hall⟩ := ih (max v w)
    refine ⟨?_, le_trans (le_max_left v w) hle, ?_⟩
    · rcases hmem with h | h
      · rcases max_choice v w with hm | hm
        · exact Or.inl (by rw [h, hm])
        · exact Or.inr (by rw [h, hm]; exact List.mem_cons_self _ _)
      · exact Or.inr (List.mem_cons_of_mem _ h)
    · intro z hz
      cases hz with
      | head => exact le_trans (le_max_right v w) hle
      | tail _ hz => exact hall z hz

theorem foldl_min_q_spec : ∀ (vs : List ℚ) (v : ℚ),
    (vs.foldl min v = v ∨ vs.foldl min v ∈ vs)
    ∧ vs.foldl min v ≤ v ∧ ∀ w ∈ vs, vs.foldl min v ≤ w := by
  intro vs
  induction vs with
  | nil => intro v; exact ⟨Or.inl rfl, le_refl v, by simp⟩
  | cons w ws ih =>
    intro v
    simp only [List.foldl_cons]
    obtain ⟨hmem, hle, hall⟩ := ih (min v w)
    refine ⟨?_, le_trans hle (min_le_left v w), ?_⟩
    · rcases hmem with h | h
      · rcases min_choice v w with hm | hm
        · exact Or.inl (by rw [h, hm])
        · exact Or.inr (by rw [h, hm]; exact List.mem_cons_self _ _)
      · exact Or.inr (List.mem_cons_of_mem _ h)
    · intro z hz
      cases hz with
      | head => exact le_trans hle (min_le_right v w)
      | tail _ hz => exact hall z hz

theorem c7_core (P : ParseFn) (acts : List ActivityEvent)
    (hparse : ∀ e ∈ acts, (e.timestamp.bind P).isSome = true)
    (hmono : ∀ e1 ∈ acts, ∀ e2 ∈ acts,
      strLe (tsKey e1) (tsKey e2) = true → absOf P e1 ≤ absOf P e2) :
    pyRound1 (activeDurationOf P acts) = specActiveDuration P acts := by
  cases acts with
  | nil =>
    simp [activeDurationOf, pyMinBy, pyMaxBy, specActiveDuration, pyRound1_zero]
  | cons a tail =>
    cases tail with
    | nil =>
      obtain ⟨ta, ha⟩ := Option.isSome_iff_exists.mp (hparse a (List.mem_cons_self _ _))
      obtain ⟨sa, hsa, hPa⟩ : ∃ s, a.timestamp = some s ∧ P s = some ta := by
        cases hts : a.timestamp with
        | none => rw [hts] at ha; simp at ha
        | some s =>
          rw [hts] at ha
          exact ⟨s, rfl, by simpa using ha⟩
      have hcode : activeDurationOf P [a] = 0 := by
        simp [activeDurationOf, pyMinBy, pyMaxBy, hsa, hPa]
      have hspec : specActiveDuration P [a] = 0 := by
        simp [specActiveDuration, List.filterMap_cons, hsa, hPa]
      rw [hcode, hspec, pyRound1_zero]
    | cons b rest =>
      obtain ⟨emin, hmin_eq, hmin_mem, hmin_all⟩ := pyMinBy_spec tsKey a (b :: rest)
      obtain ⟨emax, hmax_eq, hmax_mem, hmax_all⟩ := pyMaxBy_spec tsKey a (b :: rest)
      obtain ⟨tmin, hminB⟩ := Option.isSome_iff_exists.mp (hparse emin hmin_mem)
      obtain ⟨tmax, hmaxB⟩ := Option.isSome_iff_exists.mp (hparse emax hmax_mem)
      obtain ⟨smin, hsmin, hPmin⟩ : ∃ s, emin.timestamp = some s ∧ P s = some tmin := by
        cases hts : emin.timestamp with
        | none => rw [hts] at hminB; simp at hminB
        | some s =>
          rw [hts] at hminB
          exact ⟨s, rfl, by simpa using hminB⟩
      obtain ⟨smax, hsmax, hPmax⟩ : ∃ s, emax.timestamp = some s ∧ P s = some tmax := by
        cases hts : emax.timestamp with
        | none => rw [hts] at hmaxB; simp at hmaxB
        | some s =>
          rw [hts] at hmaxB
          exact ⟨s, rfl, by simpa using hmaxB⟩
      have hcode : activeDurationOf P (a :: b :: rest) = tmax.absHours - tmin.absHours := by
        simp [activeDurationOf, hmin_eq, hmax_eq, hsmin, hsmax, hPmin, hPmax]
      obtain ⟨ta, haB⟩ := Option.isSome_iff_exists.mp (hparse a (List.mem_cons_self _ _))
      obtain ⟨tb, hbB⟩ := Option.isSome_iff_exists.mp
        (hparse b (List.mem_cons_of_mem _ (List.mem_cons_self _ _)))
      have hfm : (a :: b :: rest).filterMap (fun e => e.timestamp.bind P)
          = ta :: tb :: rest.filterMap (fun e => e.timestamp.bind P) := by
        simp [List.filterMap_cons, haB, hbB]
      have hspec : specActiveDuration P (a :: b :: rest) =
          pyRound1 ((((tb.absHours :: (rest.filterMap
              (fun e => e.timestamp.bind P)).map ParsedTime.absHours)).foldl max ta.absHours)
            - (((tb.absHours :: (rest.filterMap
              (fun e => e.timestamp.bind P)).map ParsedTime.absHours)).foldl min ta.absHours)) := by
        unfold specActiveDuration
        rw [hfm]
        simp only [List.map_cons]
      have hmax_memv : tmax.absHours ∈ ta.absHours :: tb.absHours ::
          (rest.filterMap (fun e => e.timestamp.bind P)).map ParsedTime.absHours := by
        have h1 : tmax ∈ (a :: b :: rest).filterMap (fun e => e.timestamp.bind P) :=
          List.mem_filterMap.mpr ⟨emax, hmax_mem, hmaxB⟩
        rw [hfm] at h1
        have h2 := List.mem_map_of_mem ParsedTime.absHours h1
        simpa using h2
      have hmin_memv : tmin.absHours ∈ ta.absHours :: tb.absHours ::
          (rest.filterMap (fun e => e.timestamp.bind P)).map ParsedTime.absHours := by
        have h1 : tmin ∈ (a :: b :: rest).filterMap (fun e => e.timestamp.bind P) :=
          List.mem_filterMap.mpr ⟨emin, hmin_mem, hminB⟩
        rw [hfm] at h1
        have h2 := List.mem_map_of_mem ParsedTime.absHours h1
        simpa using h2
      have hub : ∀ w ∈ ta.absHours :: tb.absHours ::
          (rest.filterMap (fun e => e.timestamp.bind P)).map ParsedTime.absHours,
          w ≤ tmax.absHours := by
        intro w hw
        have h1 : w ∈ ((a :: b :: rest).filterMap (fun e => e.timestamp.bind P)).map
            ParsedTime.absHours := by
          rw [hfm]
          simpa using hw
        obtain ⟨t, htm, rfl⟩ := List.mem_map.mp h1
        obtain ⟨e, hem, heB⟩ := List.mem_filterMap.mp htm
        have h2 := hmono e hem emax hmax_mem (hmax_all e hem)
        simpa [absOf, heB, hmaxB] using h2
      have hlb : ∀ w ∈ ta.absHours :: tb.absHours ::
          (rest.filterMap (fun e => e.timestamp.bind P)).map ParsedTime.absHours,
          tmin.absHours ≤ w := by
        intro w hw
        have h1 : w ∈ ((a :: b :: rest).filterMap (fun e => e.timestamp.bind P)).map
            ParsedTime.absHours := by
          rw [hfm]
          simpa using hw
        obtain ⟨t, htm, rfl⟩ := List.mem_map.mp h1
        obtain ⟨e, hem, heB⟩ := List.mem_filterMap.mp htm
        have h2 := hmono emin hmin_mem e hem (hmin_all e hem)
        simpa [absOf, heB, hminB] using h2
      obtain ⟨hmem1, hacc1, hall1⟩ := foldl_max_q_spec
        (tb.absHours :: (rest.filterMap (fun e => e.timestamp.bind P)).map ParsedTime.absHours)
        ta.absHours
      obtain ⟨hmem2, hacc2, hall2⟩ := foldl_min_q_spec
        (tb.absHours :: (rest.filterMap (fun e => e.timestamp.bind P)).map ParsedTime.absHours)
        ta.absHours
      have hmaxv : (tb.absHours :: (rest.filterMap
          (fun e => e.timestamp.bind P)).map ParsedTime.absHours).foldl max ta.absHours
          = tmax.absHours := by
        apply le_antisymm
        · rcases hmem1 with h | h
          · rw [h]
            exact hub _ (List.mem_cons_self _ _)
          · exact hub _ (List.mem_cons_of_mem _ h)
        · rcases List.mem_cons.mp hmax_memv with h | h
          · rw [h]
            exact hacc1
          · exact hall1 _ h
      have hminv : (tb.absHours :: (rest.filterMap
          (fun e => e.timestamp.bind P)).map ParsedTime.absHours).foldl min ta.absHours
          = tmin.absHours := by
        apply le_antisymm
        · rcases List.mem_cons.mp hmin_memv with h | h
          · rw [h]
            exact hacc2
          · exact hall2 _ h
        · rcases hmem2 with h | h
          · rw [h]
            exact hlb _ (List.mem_cons_self _ _)
          · exact hlb _ (List.mem_cons_of_mem _ h)
      rw [hcode, hspec, hmaxv, hminv]

/-- C7 (counterexample): three events whose lexicographically largest
timestamp string ("not-a-date") is unparseable yield a reported duration of
0 even though two parseable timestamps 4 hours apart exist — the source picks
min/max by raw string before parsing, so unparseable timestamps do affect
the result. -/
theorem c7_duration_counterexample :
    (generateDailySummary testParse "2024-01-01" "t"
        mixedTimestampLines).active_duration_hours = 0
    ∧ specActiveDuration testParse (loadDailyActivities mixedTimestampLines) = 4 := by
  with_unfolding_all decide

/-- C7 (amended): the claimed duration (earliest-to-latest successfully
parsed timestamp spread, rounded, 0 below two parseable events) is computed
only under the extra hypotheses that every event's timestamp parses and that
the raw-string order is compatible with parsed time — in general the source
keys min/max on the raw timestamp string and returns 0 whenever either
extreme fails to parse. -/
theorem c7_duration_amended (P : ParseFn) (date now : String)
    (lines : List (Option ActivityEvent))
    (hparse : ∀ e ∈ loadDailyActivities lines, (e.timestamp.bind P).isSome = true)
    (hmono : ∀ e1 ∈ loadDailyActivities lines, ∀ e2 ∈ loadDailyActivities lines,
      strLe (tsKey e1) (tsKey e2) = true → absOf P e1 ≤ absOf P e2) :
    (generateDailySummary P date now lines).active_duration_hours =
      specActiveDuration P (loadDailyActivities lines) :=
  c7_core P (loadDailyActivities lines) hparse hmono

/-- C7 (witness): the amended equality instantiated on a fully parseable,
order-compatible two-event log (duration 4.0 on both sides). -/
theorem c7_duration_amended_witness :
    (generateDailySummary testParse "2024-01-01" "t"
        [some (evAt "2024-01-01T08:00:00"), some (evAt "2024-01-01T12:00:00")]).active_duration_hours =
      specActiveDuration testParse (loadDailyActivities
        [some (evAt "2024-01-01T08:00:00"), some (evAt "2024-01-01T12:00:00")]) :=
  c7_duration_amended testParse "2024-01-01" "t"
    [some (evAt "2024-01-01T08:00:00"), some (evAt "2024-01-01T12:00:00")]
    (by with_unfolding_all decide) (by with_unfolding_all decide)

/-- C10 (confirmed): the daily summary carries the complete decoded event
list in `raw_activities`, while the AI projection is insensitive to
`raw_activities` — it contains no raw event list. -/
theorem c10_raw_projection (P : ParseFn) (date now : String)
    (lines : List (Option ActivityEvent)) (s : DailySummary) :
    (generateDailySummary P date now lines).raw_activities = loadDailyActivities lines
    ∧ prepareFromSummary s = prepareFromSummary { s with raw_activities := [] } := by
  refine ⟨rfl, ?_⟩
  cases s
  rfl

end Restly
